import Mathlib

/-!
Verification of the overlap core of the Stable_Anime repository.

The development shallowly embeds, over exact rational arithmetic:

* the overlap orchestrator `Overlap.__call__` and its trace-extension helper
  `Overlap._get_extended_traces`
  (legacy_codes/stable_rendering_algo/overlap/overlap.py),
* the resize adapter merge and corner-alignment selection of
  `ResizeOverlap.__call__` (same file),
* the keyword forwarding of `VAEOverlap.__init__` (same file),
* the similarity-weighted consensus kernel `taichi_cells_overlap`
  (source/common_utils/stable_render_utils/corr_utils.py).

Tensor values are modelled as rationals; the batch and channel axes are
elided because every operation under study acts pointwise on them
(all gathers and scatters use full slices [f, :, :, y, x] and the blend is a
scalar broadcast).  A frame stack is a total function from
(frame, row, col) indices to a value; positions outside the real extent of a
concrete stack simply never matter to the statements below.
-/

/-- Frame stack: frame index, row (y), col (x) to value.  Mirrors the tensor
frame_seq_stack of shape [T, B, C, H, W] with the pointwise B, C axes elided. -/
abbrev Stack := ℕ → ℕ → ℕ → ℚ

/-- Clamping of a (possibly negative) offset position to [0, hi-1], as in
min(max(p + i, 0), max_dim - 1) at overlap.py lines 74 and 75.  Integers model
the Python ints; toNat is harmless because for hi at least 1 the clamped value
is nonnegative. -/
def clampPos (v : ℤ) (hi : ℕ) : ℕ := (min (max v 0) ((hi : ℤ) - 1)).toNat

/-- The window of 2R+1 clamped positions produced for one trace point by the
loop for i in range(-kernel_radius, kernel_radius + 1) at overlap.py
lines 73 to 75.  A negative radius yields the empty window, exactly like the
empty Python range. -/
def extendedWindow (kernelRadius : ℤ) (p : ℕ) (hi : ℕ) : List ℕ :=
  (List.range (2 * kernelRadius + 1).toNat).map
    (fun (d : ℕ) => clampPos ((p : ℤ) + ((d : ℤ) - kernelRadius)) hi)

/-- Embedding of Overlap._get_extended_traces (overlap.py lines 61 to 80):
per trace point, the frame index is repeated across the window and the row
and column are offset by the same delta and clamped.  Argument order and the
(frames, rows, cols) result order follow the source. -/
def getExtendedTraces (kernelRadius : ℤ) (frameIndexTrace xPositionTrace yPositionTrace : List ℕ)
    (maxX maxY : ℕ) : List (List ℕ) × List (List ℕ) × List (List ℕ) :=
  (frameIndexTrace.map (fun f => List.replicate (2 * kernelRadius + 1).toNat f),
   yPositionTrace.map (fun y => extendedWindow kernelRadius y maxY),
   xPositionTrace.map (fun x => extendedWindow kernelRadius x maxX))

/-- Mean of a list of values, as used by .mean(dim=1) over the window axis at
overlap.py line 138. -/
def listMean (l : List ℚ) : ℚ := l.sum / (l.length : ℚ)

/-- One correspondence-map entry is a list of occurrences ((y, x), frame);
this function extracts the scatter and gather coordinate (frame, y, x) of one
occurrence, matching the index triple of frame_seq_stack[f, :, :, y, x]. -/
def traceKey (e : (ℕ × ℕ) × ℕ) : ℕ × ℕ × ℕ := (e.2, e.1.1, e.1.2)

/-- A single tensor element assignment stack[f, :, :, y, x] = v. -/
def writeAt (s : Stack) (k : ℕ × ℕ × ℕ) (v : ℚ) : Stack :=
  fun f y x => if (f, y, x) = k then v else s f y x

/-- The fancy-index scatter at overlap.py line 145: elementwise assignment in
trace order, later writes winning on duplicated coordinates. -/
def writeAll (s : Stack) (ps : List ((ℕ × ℕ × ℕ) × ℚ)) : Stack :=
  ps.foldl (fun t p => writeAt t p.1 p.2) s

/-- Gather of the window values of one trace point: the extended frame index
list is constant, so the gather walks the zipped row and column windows at a
fixed frame, matching frame_seq_stack[ext_f, :, :, ext_y, ext_x] restricted
to one trace point. -/
def windowGather (kernelRadius : ℤ) (hgt wid : ℕ) (s : Stack) (f y x : ℕ) : List ℚ :=
  ((extendedWindow kernelRadius y hgt).zip (extendedWindow kernelRadius x wid)).map
    (fun p => s f p.1 p.2)

/-- The per-occurrence window means, i.e.
frame_seq_stack[ext traces].mean(dim=1) at overlap.py lines 137 to 138. -/
def neighborAvgs (kernelRadius : ℤ) (hgt wid : ℕ) (s : Stack)
    (vInfo : List ((ℕ × ℕ) × ℕ)) : List ℚ :=
  vInfo.map (fun e => listMean (windowGather kernelRadius hgt wid s e.2 e.1.1 e.1.2))

/-- The exact-position gather latent_seq =
frame_seq_stack[frame_index_trace, :, :, y_position_trace, x_position_trace]
at overlap.py line 136. -/
def gatherExact (s : Stack) (vInfo : List ((ℕ × ℕ) × ℕ)) : List ℚ :=
  vInfo.map (fun e => s e.2 e.1.1 e.1.2)

/-- Pluggable consensus algorithm: takes the window averages and the frame,
x and y traces, returns one reconciled value per occurrence.  This is the
signature of OverlapAlgorithm.overlap as invoked at overlap.py line 140. -/
abbrev OverlapAlgo := List ℚ → List ℕ → List ℕ → List ℕ → List ℚ

/-- The consensus invocation self.algorithm.overlap(average_pool..., frame_index_trace,
x_position_trace, y_position_trace) at overlap.py lines 140 to 141. -/
def consensusOf (alg : OverlapAlgo) (kernelRadius : ℤ) (hgt wid : ℕ) (s : Stack)
    (vInfo : List ((ℕ × ℕ) × ℕ)) : List ℚ :=
  alg (neighborAvgs kernelRadius hgt wid s vInfo)
    (vInfo.map (·.2)) (vInfo.map (·.1.2)) (vInfo.map (·.1.1))

/-- The blend alpha * overlapped_seq + (1 - alpha) * latent_seq at
overlap.py line 145. -/
def blendWith (alpha : ℚ) (cons exact : List ℚ) : List ℚ :=
  List.zipWith (fun c e => alpha * c + (1 - alpha) * e) cons exact

/-- One iteration of the loop over corr_map.Map.values() at overlap.py
lines 119 to 146: a singleton trace is skipped; otherwise the exact values
and window averages are gathered, the consensus is invoked and the blended
values are scattered back.  Crucially, the gather source and the scatter
target are one and the same stack: at overlap.py line 97 the output
frame_seq_stack_copy is produced by .detach(), which shares storage with
frame_seq_stack, so writes of earlier iterations are visible to the gathers
of later iterations. -/
def overlapStep (alg : OverlapAlgo) (alpha : ℚ) (kernelRadius : ℤ) (hgt wid : ℕ)
    (s : Stack) (vInfo : List ((ℕ × ℕ) × ℕ)) : Stack :=
  if vInfo.length = 1 then s
  else writeAll s ((vInfo.map traceKey).zip
    (blendWith alpha (consensusOf alg kernelRadius hgt wid s vInfo) (gatherExact s vInfo)))

/-- Embedding of Overlap.__call__ (overlap.py lines 82 to 152): a sequential
fold of overlapStep over the correspondence-map entries in map iteration
order, on the shared (aliased) stack. -/
def overlapCall (alg : OverlapAlgo) (alpha : ℚ) (kernelRadius : ℤ) (hgt wid : ℕ)
    (corrMap : List (List ((ℕ × ℕ) × ℕ))) (s : Stack) : Stack :=
  corrMap.foldl (overlapStep alg alpha kernelRadius hgt wid) s

/-- Modelled from the spec: the mean consensus algorithm (the algorithms
module imported at overlap.py line 9 is not part of the available sources).
Per section 4.2 step 6 and the section 8 scenarios, with consensus = mean it
returns, for every occurrence, the mean of the per-occurrence window
averages. -/
def meanAlg : OverlapAlgo :=
  fun vals _ _ _ => vals.map (fun _ => listMean vals)

/-- Truncation toward zero of a rational, the behaviour of the Python int()
conversion applied to the scheduler output at overlap.py line 101. -/
def ratTrunc (q : ℚ) : ℤ := if 0 ≤ q then ⌊q⌋ else ⌈q⌉

/-- The neighborhood radius used inside Overlap.__call__:
kernel_radius = int(self.kernel_radius_scheduler(step, timestep)) at
overlap.py line 101, as a function of the scheduler output. -/
def kernelRadiusUsed (schedulerOutput : ℚ) : ℤ := ratTrunc schedulerOutput

/-- The interpolation modes treated as smooth at overlap.py line 205. -/
def smoothModes : List String := ["linear", "bilinear", "bicubic", "trilinear"]

/-- The corner-alignment selection of ResizeOverlap.__call__ at overlap.py
line 205: align_corners = False if the configured mode is in the smooth list,
and None (left unset) otherwise. -/
def resizeAlignCorners (mode : String) : Option Bool :=
  if mode ∈ smoothModes then some false else none

/-- The elementwise merge torch.where(ovlp != 0, ovlp, frame) at overlap.py
line 221. -/
def whereNonzero (a b : ℚ) : ℚ := if a ≠ 0 then a else b

/-- The merge of the resized-back blended stack with the pre-adapter original
stack, position by position (overlap.py line 221). -/
def mergeStacks (ovlp orig : Stack) : Stack :=
  fun f y x => whereNonzero (ovlp f y x) (orig f y x)

/-- The parameter names accepted by Overlap.__init__ (overlap.py
lines 23 to 29), besides self. -/
def overlapInitParams : List String :=
  ["alpha_scheduler", "kernel_radius_scheduler", "algorithm", "verbose"]

/-- The keyword-argument names VAEOverlap.__init__ passes to the base
initializer at overlap.py lines 236 to 242.  The names are fixed in the
source text, independent of the argument values supplied by the caller. -/
def vaeSuperKwargs : List String :=
  ["alpha_scheduler", "corr_map_decay_scheduler", "kernel_radius_scheduler",
   "algorithm", "verbose"]

/-- Python keyword-argument binding: a call succeeds only when every supplied
keyword is a declared parameter; an unexpected keyword raises TypeError. -/
def bindKwargs (params kwargs : List String) : Except String Unit :=
  if kwargs.all (fun k => params.contains k) then Except.ok ()
  else Except.error "TypeError: unexpected keyword argument"

/-- The binding outcome of the super().__init__ call inside
VAEOverlap.__init__, for any argument values (the keyword names do not
depend on them). -/
def vaeOverlapInitOutcome : Except String Unit :=
  bindKwargs overlapInitParams vaeSuperKwargs

/-- Embedding of _check_values_equal (corr_utils.py lines 15 to 25): equal is
1 when all valueLen components of the two pixels agree and 0 otherwise. -/
def checkValuesEqual (ids : ℕ → ℕ → ℕ → ℤ) (valueLen : ℕ) (a b : ℕ × ℕ) : ℚ :=
  if (List.range valueLen).all (fun c => ids a.1 a.2 c == ids b.1 b.2 c) then 1 else 0

/-- Embedding of _get_similarity (corr_utils.py lines 27 to 47): the sum over
all pixel pairs of the two cells of contributions[q, i] * contributions[t, x]
* equal, with pixel indices cell * cellContainsPixel + offset. -/
def getSimilarity (ids : ℕ → ℕ → ℕ → ℤ) (valueLen : ℕ) (target cmp : ℕ × ℕ)
    (cellContainsPixel : ℕ) (contrib : ℕ → ℕ → ℚ) : ℚ :=
  ∑ x ∈ Finset.range cellContainsPixel, ∑ i ∈ Finset.range cellContainsPixel,
    contrib cmp.1 (cmp.2 * cellContainsPixel + i) *
      contrib target.1 (target.2 * cellContainsPixel + x) *
      checkValuesEqual ids valueLen
        (target.1, target.2 * cellContainsPixel + x)
        (cmp.1, cmp.2 * cellContainsPixel + i)

/-- The (batch, cell) index space ti.ndrange(origin.shape[0], origin.shape[1])
iterated by the kernel (corr_utils.py lines 91 and 128). -/
def cellPairs (batches cells : ℕ) : Finset (ℕ × ℕ) :=
  Finset.range batches ×ˢ Finset.range cells

/-- The accumulated weight of one target cell in _cell_values_overlap
(corr_utils.py lines 82 to 100): total_sim starts at 1.0 (the self term) and
accumulates a pairwise similarity for every other cell (the target itself is
skipped by the continue at line 93). -/
def totalSimOf (ids : ℕ → ℕ → ℕ → ℤ) (valueLen : ℕ) (batches cells cellContainsPixel : ℕ)
    (contrib : ℕ → ℕ → ℚ) (t : ℕ × ℕ) : ℚ :=
  1 + ∑ q ∈ (cellPairs batches cells).erase t,
    getSimilarity ids valueLen t q cellContainsPixel contrib

/-- Embedding of _cell_values_overlap (corr_utils.py lines 70 to 108) for one
target cell and one channel: the placeholder content is accumulated with the
own value (multiplier 1.0) and every other cell value weighted by its
similarity, then the total is multiplied by 1.0 / total_sim. -/
def cellValuesOverlap (ids : ℕ → ℕ → ℕ → ℤ) (valueLen : ℕ)
    (origin newValues : ℕ → ℕ → ℕ → ℚ) (t : ℕ × ℕ) (cellContainsPixel : ℕ)
    (contrib : ℕ → ℕ → ℚ) (batches cells : ℕ) (k : ℕ) : ℚ :=
  (newValues t.1 t.2 k + origin t.1 t.2 k +
    ∑ q ∈ (cellPairs batches cells).erase t,
      getSimilarity ids valueLen t q cellContainsPixel contrib * origin q.1 q.2 k) *
    (1 / totalSimOf ids valueLen batches cells cellContainsPixel contrib t)

/-- Embedding of the kernel taichi_cells_overlap (corr_utils.py lines 110 to
134): cell_contains_pixel = id_flatten_maps.shape[1] // origin.shape[1], and
every (b, i) output cell and channel k is computed independently by
cellValuesOverlap. -/
def taichiCellsOverlap (ids : ℕ → ℕ → ℕ → ℤ) (valueLen numPixels : ℕ)
    (origin newValues : ℕ → ℕ → ℕ → ℚ) (contrib : ℕ → ℕ → ℚ)
    (batches cells : ℕ) (b i k : ℕ) : ℚ :=
  cellValuesOverlap ids valueLen origin newValues (b, i) (numPixels / cells)
    contrib batches cells k

/-- Concrete 3-frame stack of the section 8 scenario: value 10 on frame 0,
20 on frame 1, 30 on frame 2 (1x1 spatial extent). -/
def stack3 : Stack := fun f _ _ => 10 * (f : ℚ) + 10

/-- Concrete correspondence-map entry of the section 8 scenario: one
surface-element id occurring at position (0, 0) of frames 0, 1 and 2. -/
def vInfo3 : List ((ℕ × ℕ) × ℕ) := [((0, 0), 0), ((0, 0), 1), ((0, 0), 2)]

/-- Concrete 2-frame, 1x2 stack used to exhibit the order dependence of the
overlap pass: frame 0 is all zero, frame 1 holds 4 at column 0 and 8 at
column 1. -/
def s0 : Stack := fun f _ x => if f = 0 then 0 else if x = 0 then 4 else 8

/-- Concrete trace A: one id at column 0 of frames 0 and 1. -/
def idA : List ((ℕ × ℕ) × ℕ) := [((0, 0), 0), ((0, 0), 1)]

/-- Concrete trace B: one id at column 1 of frames 0 and 1. -/
def idB : List ((ℕ × ℕ) × ℕ) := [((0, 1), 0), ((0, 1), 1)]

/-- Identity maps whose 4-component tuples are fully identical across all
pixels. -/
def constIds : ℕ → ℕ → ℕ → ℤ := fun _ _ _ => 0

/-- Per-pixel contribution weight 1.0 everywhere. -/
def unitContrib : ℕ → ℕ → ℚ := fun _ _ => 1

/-- Zero-initialized output placeholder. -/
def zeroValues : ℕ → ℕ → ℕ → ℚ := fun _ _ _ => 0

/-- Cell values 10 and 30 for the two cells of the section 8 kernel
scenario. -/
def twoCellValues : ℕ → ℕ → ℕ → ℚ := fun _ i _ => if i = 0 then 10 else 30

/-- C10: constructing VAEOverlap always fails with a TypeError, because its
initializer forwards the keyword corr_map_decay_scheduler that the base
Overlap initializer does not declare; hence the decode/encode overlap path is
unreachable through this class. -/
theorem vaeOverlap_init_always_type_error :
    vaeOverlapInitOutcome = Except.error "TypeError: unexpected keyword argument" ∧
    "corr_map_decay_scheduler" ∉ overlapInitParams := by
  constructor
  · rfl
  · decide

/-- C8 counterexample: for the smooth mode bilinear the code sets
align_corners to False (explicitly disabled), not enabled as the claim
states. -/
theorem resizeAlignCorners_bilinear_disabled :
    resizeAlignCorners "bilinear" = some false ∧
    resizeAlignCorners "bilinear" ≠ some true := by
  constructor
  · rfl
  · decide

/-- C8 (amended): corner-alignment is explicitly set to disabled (False) when
the configured interpolation mode is one of the smooth modes linear,
bilinear, bicubic, trilinear, and is left unset (None, the framework
default) for every other mode, the nearest family included. -/
theorem resizeAlignCorners_cases (mode : String) :
    (mode ∈ smoothModes → resizeAlignCorners mode = some false) ∧
    (mode ∉ smoothModes → resizeAlignCorners mode = none) := by
  constructor <;> intro h <;> simp [resizeAlignCorners, h]

/-- Witness for the amended C8 statement at the concrete modes bilinear and
nearest. -/
theorem resizeAlignCorners_cases_witness :
    resizeAlignCorners "bilinear" = some false ∧ resizeAlignCorners "nearest" = none :=
  ⟨(resizeAlignCorners_cases "bilinear").1 (by decide),
   (resizeAlignCorners_cases "nearest").2 (by decide)⟩

/-- C9: the merged output keeps the resized-back blended value at every
position where it is nonzero and falls back to the pre-adapter original
exactly where the blended value is exactly zero. -/
theorem mergeStacks_spec (ovlp orig : Stack) (f y x : ℕ) :
    (ovlp f y x ≠ 0 → mergeStacks ovlp orig f y x = ovlp f y x) ∧
    (ovlp f y x = 0 → mergeStacks ovlp orig f y x = orig f y x) := by
  constructor <;> intro h <;> simp [mergeStacks, whereNonzero, h]

/-- Witness for C9 at a concrete blended stack with one nonzero and one zero
position. -/
theorem mergeStacks_spec_witness :
    mergeStacks (fun _ _ x => if x = 0 then 5 else 0) (fun _ _ _ => 7) 0 0 0 = 5 ∧
    mergeStacks (fun _ _ x => if x = 0 then 5 else 0) (fun _ _ _ => 7) 0 0 1 = 7 :=
  ⟨(mergeStacks_spec (fun _ _ x => if x = 0 then 5 else 0) (fun _ _ _ => 7) 0 0 0).1
      (by norm_num),
   (mergeStacks_spec (fun _ _ x => if x = 0 then 5 else 0) (fun _ _ _ => 7) 0 0 1).2
      (by norm_num)⟩

/-- C7 counterexample: for the scheduler output -7/2 the radius used inside
overlap is int(-7/2) = -3, which is negative, refuting the claimed clamping
to nonnegative values. -/
theorem kernelRadiusUsed_negative_at :
    kernelRadiusUsed (-7/2) = -3 ∧ ¬ (0 ≤ kernelRadiusUsed (-7/2)) := by
  have h : kernelRadiusUsed (-7/2) = -3 := by
    have hlt : ¬ ((0:ℚ) ≤ -7/2) := by norm_num
    simp only [kernelRadiusUsed, ratTrunc, if_neg hlt]
    rw [Int.ceil_eq_iff]
    norm_num
  exact ⟨h, by rw [h]; norm_num⟩

/-- C7 (amended): the radius used inside overlap is the scheduler output
truncated toward zero, with no clamping; it is nonnegative exactly when the
scheduler output exceeds -1. -/
theorem kernelRadiusUsed_spec (q : ℚ) :
    kernelRadiusUsed q = ratTrunc q ∧ (0 ≤ kernelRadiusUsed q ↔ -1 < q) := by
  refine ⟨rfl, ?_⟩
  by_cases h : 0 ≤ q
  · simp only [kernelRadiusUsed, ratTrunc, if_pos h]
    constructor
    · intro _; linarith
    · intro _
      exact Int.le_floor.mpr (by exact_mod_cast h)
  · simp only [kernelRadiusUsed, ratTrunc, if_neg h]
    have hiff : (0 ≤ ⌈q⌉) ↔ ((-1 : ℤ) < ⌈q⌉) := by omega
    rw [hiff, Int.lt_ceil]
    norm_num

/-- Witness for the amended C7 statement at the concrete scheduler
output 1/2. -/
theorem kernelRadiusUsed_spec_witness : 0 ≤ kernelRadiusUsed (1/2) :=
  (kernelRadiusUsed_spec (1/2)).2.mpr (by norm_num)

/-- C5: the accumulated weight of every target cell starts at 1.0, every
pairwise similarity added to it is nonnegative whenever all contribution
weights are nonnegative, so the weight stays at least 1.0 and the final
normalization never divides by zero. -/
theorem consensus_weight_ge_one (ids : ℕ → ℕ → ℕ → ℤ) (valueLen batches cells pix : ℕ)
    (contrib : ℕ → ℕ → ℚ) (t : ℕ × ℕ)
    (hc : ∀ b x, 0 ≤ contrib b x) :
    (∀ q, 0 ≤ getSimilarity ids valueLen t q pix contrib) ∧
    1 ≤ totalSimOf ids valueLen batches cells pix contrib t ∧
    totalSimOf ids valueLen batches cells pix contrib t ≠ 0 := by
  have hsim : ∀ q, 0 ≤ getSimilarity ids valueLen t q pix contrib := by
    intro q
    refine Finset.sum_nonneg fun x _ => Finset.sum_nonneg fun i _ => ?_
    have h01 : (0:ℚ) ≤ checkValuesEqual ids valueLen
        (t.1, t.2 * pix + x) (q.1, q.2 * pix + i) := by
      unfold checkValuesEqual
      split <;> norm_num
    exact mul_nonneg (mul_nonneg (hc _ _) (hc _ _)) h01
  have hts : 1 ≤ totalSimOf ids valueLen batches cells pix contrib t := by
    unfold totalSimOf
    have hnn : 0 ≤ ∑ q ∈ (cellPairs batches cells).erase t,
        getSimilarity ids valueLen t q pix contrib :=
      Finset.sum_nonneg fun q _ => hsim q
    linarith
  refine ⟨hsim, hts, fun hzero => ?_⟩
  rw [hzero] at hts
  norm_num at hts

/-- Witness for C5 at a concrete instance with unit contributions. -/
theorem consensus_weight_ge_one_witness :
    1 ≤ totalSimOf (fun _ _ _ => 0) 4 1 2 1 (fun _ _ => 1) (0, 0) :=
  (consensus_weight_ge_one (fun _ _ _ => 0) 4 1 2 1 (fun _ _ => 1) (0, 0)
    (fun _ _ => by norm_num)).2.1

/-- Helper: a scatter leaves untouched every coordinate that is not among the
scattered keys. -/
theorem writeAll_apply_of_notMem (ps : List ((ℕ × ℕ × ℕ) × ℚ)) (s : Stack)
    (k : ℕ × ℕ × ℕ) (hk : k ∉ ps.map Prod.fst) :
    writeAll s ps k.1 k.2.1 k.2.2 = s k.1 k.2.1 k.2.2 := by
  induction ps generalizing s with
  | nil => rfl
  | cons p ps ih =>
    simp only [List.map_cons, List.mem_cons, not_or] at hk
    calc writeAll s (p :: ps) k.1 k.2.1 k.2.2
        = writeAll (writeAt s p.1 p.2) ps k.1 k.2.1 k.2.2 := rfl
      _ = writeAt s p.1 p.2 k.1 k.2.1 k.2.2 := ih (writeAt s p.1 p.2) hk.2
      _ = s k.1 k.2.1 k.2.2 := by
          simp only [writeAt]
          rw [if_neg]
          exact fun h => hk.1 h
  
/-- Helper: when the scattered keys are pairwise distinct, the scatter result
at the key of any scattered pair is the value of that pair. -/
theorem writeAll_apply_mem (ps : List ((ℕ × ℕ × ℕ) × ℚ)) (s : Stack)
    (hnodup : (ps.map Prod.fst).Nodup) (k : ℕ × ℕ × ℕ) (v : ℚ) (hmem : (k, v) ∈ ps) :
    writeAll s ps k.1 k.2.1 k.2.2 = v := by
  induction ps generalizing s with
  | nil => cases hmem
  | cons p ps ih =>
    obtain ⟨pk, pv⟩ := p
    simp only [List.map_cons, List.nodup_cons] at hnodup
    rcases List.mem_cons.mp hmem with h | h
    · obtain ⟨hk, hv⟩ := Prod.mk.injEq .. ▸ h
      subst hk
      subst hv
      calc writeAll s ((k, v) :: ps) k.1 k.2.1 k.2.2
          = writeAll (writeAt s k v) ps k.1 k.2.1 k.2.2 := rfl
        _ = writeAt s k v k.1 k.2.1 k.2.2 :=
            writeAll_apply_of_notMem ps _ k hnodup.1
        _ = v := by
            simp only [writeAt]
            simp
    · exact ih (writeAt s pk pv) hnodup.2 h

/-- Helper: getD of a mapped list at an in-range index, for any defaults. -/
theorem listGetD_map {α β : Type} (f : α → β) (l : List α) (i : ℕ) (d0 : β) (d : α)
    (h : i < l.length) : (l.map f).getD i d0 = f (l.getD i d) := by
  induction l generalizing i with
  | nil => simp at h
  | cons a l ih =>
    cases i with
    | zero => rfl
    | succ n => exact ih n (Nat.lt_of_succ_lt_succ h)

/-- Helper: the pair of in-range getD projections is a member of the zip. -/
theorem listGetD_zip_mem {α β : Type} (a : List α) (b : List β) (i : ℕ) (d1 : α) (d2 : β)
    (h1 : i < a.length) (h2 : i < b.length) : (a.getD i d1, b.getD i d2) ∈ a.zip b := by
  induction a generalizing b i with
  | nil => simp at h1
  | cons x a ih =>
    cases b with
    | nil => simp at h2
    | cons y b =>
      cases i with
      | zero => exact List.mem_cons_self _ _
      | succ n =>
        exact List.mem_cons_of_mem _
          (ih b n (Nat.lt_of_succ_lt_succ h1) (Nat.lt_of_succ_lt_succ h2))

/-- Helper: getD of a zipWith at an in-range index, for any defaults. -/
theorem listGetD_zipWith {α β γ : Type} (g : α → β → γ) (a : List α) (b : List β) (i : ℕ)
    (d0 : γ) (d1 : α) (d2 : β) (h1 : i < a.length) (h2 : i < b.length) :
    (List.zipWith g a b).getD i d0 = g (a.getD i d1) (b.getD i d2) := by
  induction a generalizing b i with
  | nil => simp at h1
  | cons x a ih =>
    cases b with
    | nil => simp at h2
    | cons y b =>
      cases i with
      | zero => rfl
      | succ n => exact ih b n (Nat.lt_of_succ_lt_succ h1) (Nat.lt_of_succ_lt_succ h2)

/-- C2: when every surface-element id of the correspondence map has exactly
one occurrence, the overlap pass returns the frame stack unchanged, for every
consensus algorithm, blend strength, radius and frame extent. -/
theorem overlap_identity_on_singleton_map (alg : OverlapAlgo) (alpha : ℚ) (r : ℤ)
    (hgt wid : ℕ) (corrMap : List (List ((ℕ × ℕ) × ℕ))) (s : Stack)
    (h : ∀ v ∈ corrMap, v.length = 1) :
    overlapCall alg alpha r hgt wid corrMap s = s := by
  induction corrMap generalizing s with
  | nil => rfl
  | cons v m ih =>
    have hv : v.length = 1 := h v (List.mem_cons_self v m)
    have hstep : overlapStep alg alpha r hgt wid s v = s := by
      simp [overlapStep, hv]
    calc overlapCall alg alpha r hgt wid (v :: m) s
        = overlapCall alg alpha r hgt wid m (overlapStep alg alpha r hgt wid s v) := rfl
      _ = overlapCall alg alpha r hgt wid m s := by rw [hstep]
      _ = s := ih s (fun w hw => h w (List.mem_cons_of_mem v hw))

/-- Witness for C2 on a concrete two-id map whose ids each occur once. -/
theorem overlap_identity_on_singleton_map_witness :
    overlapCall meanAlg 1 0 4 4 [[((0, 0), 0)], [((1, 1), 2)]]
      (fun (f y x : ℕ) => (f : ℚ) + y + x) = (fun (f y x : ℕ) => (f : ℚ) + y + x) :=
  overlap_identity_on_singleton_map meanAlg 1 0 4 4 [[((0, 0), 0)], [((1, 1), 2)]]
    (fun (f y x : ℕ) => (f : ℚ) + y + x) (by decide)

/-- C3: for a correspondence-map entry with at least two occurrences,
processed in a pass of its own with pairwise distinct traced positions and a
consensus output of matching length, the output value at every traced
position is alpha times the consensus value plus (1 - alpha) times the
original value at that position; in particular for the concrete 3-frame
scenario (one id at (0,0) of frames 0, 1, 2 holding 10, 20, 30, radius 0,
mean consensus) alpha 1 yields 20 at all three positions and alpha 1/2
yields 15, 20, 25 respectively. -/
theorem overlap_blend_formula :
    (∀ (alg : OverlapAlgo) (alpha : ℚ) (r : ℤ) (hgt wid : ℕ)
        (vInfo : List ((ℕ × ℕ) × ℕ)) (s : Stack) (i : ℕ),
      vInfo.length ≠ 1 →
      (vInfo.map traceKey).Nodup →
      (consensusOf alg r hgt wid s vInfo).length = vInfo.length →
      i < vInfo.length →
      overlapCall alg alpha r hgt wid [vInfo] s
          (traceKey (vInfo.getD i ((0, 0), 0))).1
          (traceKey (vInfo.getD i ((0, 0), 0))).2.1
          (traceKey (vInfo.getD i ((0, 0), 0))).2.2
        = alpha * (consensusOf alg r hgt wid s vInfo).getD i 0
          + (1 - alpha) * s (traceKey (vInfo.getD i ((0, 0), 0))).1
              (traceKey (vInfo.getD i ((0, 0), 0))).2.1
              (traceKey (vInfo.getD i ((0, 0), 0))).2.2) ∧
    (overlapCall meanAlg 1 0 1 1 [vInfo3] stack3 0 0 0 = 20 ∧
     overlapCall meanAlg 1 0 1 1 [vInfo3] stack3 1 0 0 = 20 ∧
     overlapCall meanAlg 1 0 1 1 [vInfo3] stack3 2 0 0 = 20) ∧
    (overlapCall meanAlg (1/2) 0 1 1 [vInfo3] stack3 0 0 0 = 15 ∧
     overlapCall meanAlg (1/2) 0 1 1 [vInfo3] stack3 1 0 0 = 20 ∧
     overlapCall meanAlg (1/2) 0 1 1 [vInfo3] stack3 2 0 0 = 25) := by
  have hne : (vInfo3.length = 1) = False := by simp [vInfo3]
  have hwin : extendedWindow 0 0 1 = [0] := by decide
  refine ⟨?_, ⟨?_, ?_, ?_⟩, ⟨?_, ?_, ?_⟩⟩
  · intro alg alpha r hgt wid vInfo s i hlen hnodup halg hi
    have hkeysLen : (vInfo.map traceKey).length = vInfo.length := by simp
    have hexactLen : (gatherExact s vInfo).length = vInfo.length := by simp [gatherExact]
    have hvalsLen : (blendWith alpha (consensusOf alg r hgt wid s vInfo)
        (gatherExact s vInfo)).length = vInfo.length := by
      simp [blendWith, halg, hexactLen]
    have hzipfst : (((vInfo.map traceKey).zip (blendWith alpha
        (consensusOf alg r hgt wid s vInfo) (gatherExact s vInfo))).map Prod.fst)
        = vInfo.map traceKey :=
      List.map_fst_zip _ _ (by rw [hkeysLen, hvalsLen])
    have hmem := listGetD_zip_mem (vInfo.map traceKey)
        (blendWith alpha (consensusOf alg r hgt wid s vInfo) (gatherExact s vInfo)) i
        (0, 0, 0) 0 (by rw [hkeysLen]; exact hi) (by rw [hvalsLen]; exact hi)
    have hw := writeAll_apply_mem _ s (by rw [hzipfst]; exact hnodup)
        ((vInfo.map traceKey).getD i (0, 0, 0))
        ((blendWith alpha (consensusOf alg r hgt wid s vInfo)
          (gatherExact s vInfo)).getD i 0) hmem
    have hkey : (vInfo.map traceKey).getD i (0, 0, 0) = traceKey (vInfo.getD i ((0, 0), 0)) :=
      listGetD_map traceKey vInfo i (0, 0, 0) ((0, 0), 0) hi
    have hval : (blendWith alpha (consensusOf alg r hgt wid s vInfo)
          (gatherExact s vInfo)).getD i 0
        = alpha * (consensusOf alg r hgt wid s vInfo).getD i 0
          + (1 - alpha) * (gatherExact s vInfo).getD i 0 := by
      unfold blendWith
      exact listGetD_zipWith _ _ _ i 0 0 0 (by rw [halg]; exact hi)
        (by rw [hexactLen]; exact hi)
    have hex : (gatherExact s vInfo).getD i 0
        = s (traceKey (vInfo.getD i ((0, 0), 0))).1 (traceKey (vInfo.getD i ((0, 0), 0))).2.1
            (traceKey (vInfo.getD i ((0, 0), 0))).2.2 := by
      unfold gatherExact
      rw [listGetD_map (fun e => s e.2 e.1.1 e.1.2) vInfo i 0 ((0, 0), 0) hi]
      rfl
    have hcall : overlapCall alg alpha r hgt wid [vInfo] s
        = writeAll s ((vInfo.map traceKey).zip (blendWith alpha
            (consensusOf alg r hgt wid s vInfo) (gatherExact s vInfo))) := by
      show overlapStep alg alpha r hgt wid s vInfo = _
      simp only [overlapStep, if_neg hlen]
    rw [hcall, ← hkey, hw, hval, hex, hkey]
  · simp only [overlapCall, List.foldl_cons, List.foldl_nil, overlapStep, hne, if_false]
    simp only [vInfo3, stack3, meanAlg, consensusOf, neighborAvgs, gatherExact, windowGather,
      blendWith, traceKey, listMean, hwin, List.map_cons, List.map_nil, List.zip_cons_cons,
      List.zip_nil_right, List.zipWith_cons_cons, List.zipWith_nil_right, List.length_cons,
      List.length_nil, List.sum_cons, List.sum_nil, writeAll, List.foldl_cons, List.foldl_nil,
      writeAt, Prod.mk.injEq]
    norm_num
  · simp only [overlapCall, List.foldl_cons, List.foldl_nil, overlapStep, hne, if_false]
    simp only [vInfo3, stack3, meanAlg, consensusOf, neighborAvgs, gatherExact, windowGather,
      blendWith, traceKey, listMean, hwin, List.map_cons, List.map_nil, List.zip_cons_cons,
      List.zip_nil_right, List.zipWith_cons_cons, List.zipWith_nil_right, List.length_cons,
      List.length_nil, List.sum_cons, List.sum_nil, writeAll, List.foldl_cons, List.foldl_nil,
      writeAt, Prod.mk.injEq]
    norm_num
  · simp only [overlapCall, List.foldl_cons, List.foldl_nil, overlapStep, hne, if_false]
    simp only [vInfo3, stack3, meanAlg, consensusOf, neighborAvgs, gatherExact, windowGather,
      blendWith, traceKey, listMean, hwin, List.map_cons, List.map_nil, List.zip_cons_cons,
      List.zip_nil_right, List.zipWith_cons_cons, List.zipWith_nil_right, List.length_cons,
      List.length_nil, List.sum_cons, List.sum_nil, writeAll, List.foldl_cons, List.foldl_nil,
      writeAt, Prod.mk.injEq]
    norm_num
  · simp only [overlapCall, List.foldl_cons, List.foldl_nil, overlapStep, hne, if_false]
    simp only [vInfo3, stack3, meanAlg, consensusOf, neighborAvgs, gatherExact, windowGather,
      blendWith, traceKey, listMean, hwin, List.map_cons, List.map_nil, List.zip_cons_cons,
      List.zip_nil_right, List.zipWith_cons_cons, List.zipWith_nil_right, List.length_cons,
      List.length_nil, List.sum_cons, List.sum_nil, writeAll, List.foldl_cons, List.foldl_nil,
      writeAt, Prod.mk.injEq]
    norm_num
  · simp only [overlapCall, List.foldl_cons, List.foldl_nil, overlapStep, hne, if_false]
    simp only [vInfo3, stack3, meanAlg, consensusOf, neighborAvgs, gatherExact, windowGather,
      blendWith, traceKey, listMean, hwin, List.map_cons, List.map_nil, List.zip_cons_cons,
      List.zip_nil_right, List.zipWith_cons_cons, List.zipWith_nil_right, List.length_cons,
      List.length_nil, List.sum_cons, List.sum_nil, writeAll, List.foldl_cons, List.foldl_nil,
      writeAt, Prod.mk.injEq]
    norm_num
  · simp only [overlapCall, List.foldl_cons, List.foldl_nil, overlapStep, hne, if_false]
    simp only [vInfo3, stack3, meanAlg, consensusOf, neighborAvgs, gatherExact, windowGather,
      blendWith, traceKey, listMean, hwin, List.map_cons, List.map_nil, List.zip_cons_cons,
      List.zip_nil_right, List.zipWith_cons_cons, List.zipWith_nil_right, List.length_cons,
      List.length_nil, List.sum_cons, List.sum_nil, writeAll, List.foldl_cons, List.foldl_nil,
      writeAt, Prod.mk.injEq]
    norm_num

/-- Witness for C3: the general blend formula applied to the concrete
scenario trace at occurrence index 1 with alpha 1/2. -/
theorem overlap_blend_formula_witness :
    overlapCall meanAlg (1/2) 0 1 1 [vInfo3] stack3
        (traceKey (vInfo3.getD 1 ((0, 0), 0))).1
        (traceKey (vInfo3.getD 1 ((0, 0), 0))).2.1
        (traceKey (vInfo3.getD 1 ((0, 0), 0))).2.2
      = (1/2) * (consensusOf meanAlg 0 1 1 stack3 vInfo3).getD 1 0
        + (1 - 1/2) * stack3 (traceKey (vInfo3.getD 1 ((0, 0), 0))).1
            (traceKey (vInfo3.getD 1 ((0, 0), 0))).2.1
            (traceKey (vInfo3.getD 1 ((0, 0), 0))).2.2 :=
  overlap_blend_formula.1 meanAlg (1/2) 0 1 1 vInfo3 stack3 1 (by decide) (by decide)
    (by decide) (by decide)

/-- C1: the overlap pass is NOT independent of the map iteration order.
Because the output stack at overlap.py line 97 is obtained by .detach(),
which shares storage with the gather source, a write performed for one id
changes what a later id reads through its extended neighborhood: on the
concrete 2-frame 1x2 stack s0 with ids idA and idB, radius 1, alpha 1 and
mean consensus, the value left at frame 0 position (0, 0) differs between
the two processing orders (8/3 versus 22/9). -/
theorem overlap_pass_order_dependent :
    overlapCall meanAlg 1 1 1 2 [idA, idB] s0 0 0 0 ≠
    overlapCall meanAlg 1 1 1 2 [idB, idA] s0 0 0 0 := by
  have hneA : (idA.length = 1) = False := by simp [idA]
  have hneB : (idB.length = 1) = False := by simp [idB]
  have hw00 : extendedWindow 1 0 1 = [0, 0, 0] := by decide
  have hw02 : extendedWindow 1 0 2 = [0, 0, 1] := by decide
  have hw12 : extendedWindow 1 1 2 = [0, 1, 1] := by decide
  simp only [overlapCall, List.foldl_cons, List.foldl_nil, overlapStep, hneA, hneB, if_false]
  simp only [idA, idB, s0, meanAlg, consensusOf, neighborAvgs, gatherExact, windowGather,
    blendWith, traceKey, listMean, hw00, hw02, hw12, List.map_cons, List.map_nil,
    List.zip_cons_cons, List.zip_nil_right, List.zipWith_cons_cons, List.zipWith_nil_right,
    List.length_cons, List.length_nil, List.sum_cons, List.sum_nil, writeAll,
    List.foldl_cons, List.foldl_nil, writeAt, Prod.mk.injEq]
  norm_num

/-- Helper: getD of a range list at an in-range index is the index itself. -/
theorem listGetD_range (n : ℕ) : ∀ (i d : ℕ), i < n → (List.range n).getD i d = i := by
  induction n with
  | zero => exact fun i d h => absurd h (Nat.not_lt_zero i)
  | succ n ih =>
    intro i d h
    rw [List.range_succ_eq_map]
    cases i with
    | zero => rfl
    | succ m =>
      have hm : m < n := Nat.lt_of_succ_lt_succ h
      calc (0 :: (List.range n).map Nat.succ).getD (m + 1) d
          = ((List.range n).map Nat.succ).getD m d := rfl
        _ = Nat.succ ((List.range n).getD m 0) := listGetD_map Nat.succ _ m d 0 (by simpa using hm)
        _ = m + 1 := by rw [ih m 0 hm]

/-- C6: for every radius R at least 0 and every trace point, the extended
trace holds exactly 2R+1 row positions and 2R+1 column positions, the d-th
(for d counted from -R, here indexed by dlt = d + R) being the row y + d
clamped to [0, height-1] paired with the column x + d clamped to
[0, width-1] with the same delta, while the frame index is repeated across
all 2R+1 window slots. -/
theorem extended_trace_window_spec (R : ℕ) (fT xT yT : List ℕ) (maxX maxY : ℕ)
    (idx dlt : ℕ) (hX : 1 ≤ maxX) (hY : 1 ≤ maxY)
    (hf : idx < fT.length) (hy : idx < yT.length) (hx : idx < xT.length)
    (hd : dlt < 2 * R + 1) :
    ((getExtendedTraces (R : ℤ) fT xT yT maxX maxY).2.1.getD idx []).length = 2 * R + 1 ∧
    ((getExtendedTraces (R : ℤ) fT xT yT maxX maxY).2.2.getD idx []).length = 2 * R + 1 ∧
    (((getExtendedTraces (R : ℤ) fT xT yT maxX maxY).2.1.getD idx []).getD dlt 0 : ℤ)
      = min (max ((yT.getD idx 0 : ℤ) + ((dlt : ℤ) - (R : ℤ))) 0) ((maxY : ℤ) - 1) ∧
    (((getExtendedTraces (R : ℤ) fT xT yT maxX maxY).2.2.getD idx []).getD dlt 0 : ℤ)
      = min (max ((xT.getD idx 0 : ℤ) + ((dlt : ℤ) - (R : ℤ))) 0) ((maxX : ℤ) - 1) ∧
    (getExtendedTraces (R : ℤ) fT xT yT maxX maxY).1.getD idx []
      = List.replicate (2 * R + 1) (fT.getD idx 0) := by
  have hto : ((2 * (R : ℤ) + 1)).toNat = 2 * R + 1 := by omega
  have hyw : (getExtendedTraces (R : ℤ) fT xT yT maxX maxY).2.1.getD idx []
      = extendedWindow (R : ℤ) (yT.getD idx 0) maxY := by
    show (yT.map (fun y => extendedWindow (R : ℤ) y maxY)).getD idx [] = _
    exact listGetD_map _ yT idx [] 0 hy
  have hxw : (getExtendedTraces (R : ℤ) fT xT yT maxX maxY).2.2.getD idx []
      = extendedWindow (R : ℤ) (xT.getD idx 0) maxX := by
    show (xT.map (fun x => extendedWindow (R : ℤ) x maxX)).getD idx [] = _
    exact listGetD_map _ xT idx [] 0 hx
  have hfw : (getExtendedTraces (R : ℤ) fT xT yT maxX maxY).1.getD idx []
      = List.replicate ((2 * (R : ℤ) + 1)).toNat (fT.getD idx 0) := by
    show (fT.map (fun f => List.replicate ((2 * (R : ℤ) + 1)).toNat f)).getD idx [] = _
    exact listGetD_map _ fT idx [] 0 hf
  have hlen : ∀ (p hi : ℕ), (extendedWindow (R : ℤ) p hi).length = 2 * R + 1 := by
    intro p hi
    unfold extendedWindow
    rw [List.length_map, List.length_range, hto]
  have helem : ∀ (p hi : ℕ), 1 ≤ hi →
      ((extendedWindow (R : ℤ) p hi).getD dlt 0 : ℤ)
        = min (max ((p : ℤ) + ((dlt : ℤ) - (R : ℤ))) 0) ((hi : ℤ) - 1) := by
    intro p hi h1
    have hd2 : dlt < ((2 * (R : ℤ) + 1)).toNat := by rw [hto]; exact hd
    have hd3 : dlt < (List.range ((2 * (R : ℤ) + 1)).toNat).length := by
      rw [List.length_range]; exact hd2
    unfold extendedWindow
    rw [listGetD_map (fun (d : ℕ) => clampPos ((p : ℤ) + ((d : ℤ) - (R : ℤ))) hi) _ dlt 0 0 hd3]
    rw [listGetD_range _ dlt 0 hd2]
    unfold clampPos
    rw [Int.toNat_of_nonneg]
    exact le_min (le_max_right _ _) (by omega)
  refine ⟨?_, ?_, ?_, ?_, ?_⟩
  · rw [hyw, hlen]
  · rw [hxw, hlen]
  · rw [hyw, helem _ _ hY]
  · rw [hxw, helem _ _ hX]
  · rw [hfw, hto]

/-- Witness for C6: the concrete trace point y = 0, x = 3, frame 7 with
radius 1 in a 4 by 4 extent; the first window slot (delta -1) clamps the row
to 0. -/
theorem extended_trace_window_spec_witness :
    ((getExtendedTraces (1 : ℤ) [7] [3] [0] 4 4).2.1.getD 0 []).getD 0 0 = 0 := by
  have h := extended_trace_window_spec 1 [7] [3] [0] 4 4 0 0 (by norm_num) (by norm_num)
    (by simp) (by simp) (by simp) (by norm_num)
  have h3 := h.2.2.1
  have h4 : ((((getExtendedTraces ((1 : ℕ) : ℤ) [7] [3] [0] 4 4).2.1.getD 0 []).getD 0 0 : ℕ) : ℤ)
      = 0 := by
    rw [h3]
    decide
  exact_mod_cast h4

/-- C4 counterexample: with 2 cells of 2 pixels each (numPixels 4, cells 2),
fully identical identity tuples, contribution 1.0 per pixel and a
zero-initialized placeholder, the kernel output for cell 0 with values 10
and 30 is (10 + 4*30)/5 = 26, not the unweighted mean 20: the claim fails
whenever a cell holds more than one pixel. -/
theorem taichi_mean_fails_for_two_pixel_cells :
    taichiCellsOverlap constIds 4 4 twoCellValues zeroValues unitContrib 1 2 0 0 0 = 26 ∧
    (26 : ℚ) ≠ (10 + 30) / 2 := by
  have hcheck : ∀ a b, checkValuesEqual constIds 4 a b = 1 := by
    intro a b
    simp [checkValuesEqual, constIds]
  have herase : (cellPairs 1 2).erase (0, 0) = {(0, 1)} := by decide
  constructor
  · simp only [taichiCellsOverlap, cellValuesOverlap, totalSimOf, herase,
      Finset.sum_singleton, getSimilarity, hcheck, unitContrib, zeroValues, twoCellValues,
      constIds]
    norm_num [Finset.sum_const, Finset.card_range]
  · norm_num

/-- C4 (amended): when every cell holds exactly one pixel (numPixels equals
the cell count), all pixels carry fully identical identity tuples, every
per-pixel contribution is 1.0 and the output placeholder is zero-initialized,
the kernel output for every cell equals the unweighted arithmetic mean of all
batches * cells cell values. -/
theorem taichi_unweighted_mean_of_identical_ids
    (ids : ℕ → ℕ → ℕ → ℤ) (valueLen batches cells : ℕ)
    (origin newValues : ℕ → ℕ → ℕ → ℚ) (contrib : ℕ → ℕ → ℚ) (g : ℕ → ℤ)
    (hcpos : 0 < cells)
    (hids : ∀ b x c, b < batches → x < cells → ids b x c = g c)
    (hco : ∀ b x, b < batches → x < cells → contrib b x = 1)
    (hzero : ∀ b i k, newValues b i k = 0)
    (b i k : ℕ) (hb : b < batches) (hi : i < cells) :
    taichiCellsOverlap ids valueLen cells origin newValues contrib batches cells b i k
      = (∑ q ∈ cellPairs batches cells, origin q.1 q.2 k) / ((batches * cells : ℕ) : ℚ) := by
  have hP : cells / cells = 1 := Nat.div_self hcpos
  have htmem : (b, i) ∈ cellPairs batches cells := by
    simp [cellPairs, Finset.mem_product, hb, hi]
  have hmemrange : ∀ q ∈ (cellPairs batches cells).erase (b, i),
      q.1 < batches ∧ q.2 < cells := by
    intro q hq
    have hqmem := Finset.mem_of_mem_erase hq
    simp only [cellPairs, Finset.mem_product, Finset.mem_range] at hqmem
    exact hqmem
  have hsim : ∀ q ∈ (cellPairs batches cells).erase (b, i),
      getSimilarity ids valueLen (b, i) q 1 contrib = 1 := by
    intro q hq
    obtain ⟨hq1, hq2⟩ := hmemrange q hq
    simp only [getSimilarity]
    rw [Finset.sum_range_succ, Finset.sum_range_zero, Finset.sum_range_succ,
      Finset.sum_range_zero]
    simp only [Nat.mul_one, Nat.add_zero, zero_add]
    rw [hco q.1 q.2 hq1 hq2, hco b i hb hi]
    have hcv : checkValuesEqual ids valueLen (b, i) (q.1, q.2) = 1 := by
      unfold checkValuesEqual
      rw [if_pos]
      refine List.all_eq_true.mpr fun c hc => ?_
      have h1 : ids b i c = g c := hids b i c hb hi
      have h2 : ids q.1 q.2 c = g c := hids q.1 q.2 c hq1 hq2
      simp only [h1, h2, beq_self_eq_true]
    rw [hcv]
    ring
  have hcard : (cellPairs batches cells).card = batches * cells := by
    simp [cellPairs]
  have hone : 1 ≤ batches * cells := Nat.mul_pos (by omega) hcpos
  have hts : totalSimOf ids valueLen batches cells 1 contrib (b, i)
      = ((batches * cells : ℕ) : ℚ) := by
    unfold totalSimOf
    rw [Finset.sum_congr rfl hsim, Finset.sum_const, Finset.card_erase_of_mem htmem, hcard,
      nsmul_eq_mul, mul_one]
    push_cast [hone]
    ring
  have hvals : ∑ q ∈ (cellPairs batches cells).erase (b, i),
      getSimilarity ids valueLen (b, i) q 1 contrib * origin q.1 q.2 k
      = ∑ q ∈ (cellPairs batches cells).erase (b, i), origin q.1 q.2 k := by
    refine Finset.sum_congr rfl fun q hq => ?_
    rw [hsim q hq, one_mul]
  have hsplit : origin b i k + ∑ q ∈ (cellPairs batches cells).erase (b, i), origin q.1 q.2 k
      = ∑ q ∈ cellPairs batches cells, origin q.1 q.2 k := by
    exact Finset.add_sum_erase (cellPairs batches cells) (fun q => origin q.1 q.2 k) htmem
  simp only [taichiCellsOverlap, hP]
  unfold cellValuesOverlap
  rw [hzero, hvals, hts, zero_add, hsplit]
  rw [mul_one_div]

/-- Witness for the amended C4 statement: 2 cells of one pixel each with
values 10 and 30, identical identity tuples and unit contributions give
output 20 for cell 0. -/
theorem taichi_unweighted_mean_witness :
    taichiCellsOverlap constIds 4 2 twoCellValues zeroValues unitContrib 1 2 0 0 0 = 20 := by
  have h := taichi_unweighted_mean_of_identical_ids constIds 4 1 2 twoCellValues zeroValues
    unitContrib (fun _ => 0) (by norm_num) (fun _ _ _ _ _ => rfl) (fun _ _ _ _ => rfl)
    (fun _ _ _ => rfl) 0 0 0 (by norm_num) (by norm_num)
  rw [h]
  have hcp : cellPairs 1 2 = {(0, 0), (0, 1)} := by decide
  rw [hcp]
  rw [Finset.sum_insert (by decide), Finset.sum_singleton]
  norm_num [twoCellValues]
